import Mathlib

set_option maxRecDepth 40000
set_option maxHeartbeats 1000000

/-!
Verification development for the grocery-compare repository.

The definitions below are a shallow embedding of the Python source:
  src/app.py                 (routes deals and compare, the scrape pipeline
                              with _parse_money_any, _add_item, walk, dedupe)
  src/scrapers/freshmarket.py (_parse_price, _extract_unit_info,
                              _extract_deals_from_html)
  src/utils/normalize.py     (compute_unit_price)

Python floats are modelled as rationals; Python round(x, n) is modelled as
round-half-to-even on rationals at n decimal places, matching the documented
behaviour of round on exactly representable values.  Regular-expression
searches are modelled as leftmost-position scans with maximal munch, which is
complete for the concrete patterns in the source, since in each pattern the
character classes of adjacent greedy pieces are disjoint.
-/

/-! ## Character and scanning helpers -/

/-- Whitespace class of the Python regex \s (ASCII part). -/
def isWsPy (c : Char) : Bool :=
  c == ' ' || c == '\t' || c == '\n' || c == '\r' || c == '\x0b' || c == '\x0c'

def skipWs (l : List Char) : List Char := l.dropWhile isWsPy

/-- Python str.strip applied to a character list. -/
def trimWsL (l : List Char) : List Char :=
  ((l.dropWhile isWsPy).reverse.dropWhile isWsPy).reverse

/-- The replace of a non-breaking space by a plain space done by both parsers. -/
def nbspToSpace (c : Char) : Char := if c = '\xa0' then ' ' else c

/-- Numeric value of a run of decimal digit characters. -/
def digitsVal (ds : List Char) : ℕ :=
  ds.foldl (fun a c => 10 * a + (c.toNat - 48)) 0

/-- Parse the regex piece [0-9]+(\.[0-9]\x7b1,2\x7d)? at the current
position: an integer with at most two captured decimal places.  Returns the
numeric value and the unconsumed rest. -/
def parseNum2 (l : List Char) : Option (ℚ × List Char) :=
  let d := l.takeWhile Char.isDigit
  if d.isEmpty then none
  else
    match l.dropWhile Char.isDigit with
    | '.' :: r2 =>
      let f := r2.takeWhile Char.isDigit
      if f.isEmpty then some ((digitsVal d : ℚ), '.' :: r2)
      else
        let f2 := f.take 2
        some ((digitsVal d : ℚ) + (digitsVal f2 : ℚ) / (10 : ℚ) ^ f2.length,
              r2.drop f2.length)
    | r => some ((digitsVal d : ℚ), r)

/-- Leftmost-position search: try a position matcher at every suffix, in
order, exactly as re.search scans a subject string. -/
def searchPos {α : Type} (m : List Char → Option α) : List Char → Option α
  | [] => m []
  | c :: r =>
    match m (c :: r) with
    | some v => some v
    | none => searchPos m r

/-- Case-insensitive literal token for in the multi-buy patterns. -/
def forTokenCI : List Char → Option (List Char)
  | a :: b :: c :: r =>
    if a.toLower == 'f' && b.toLower == 'o' && c.toLower == 'r' then some r
    else none
  | _ => none

/-- Separator of app.py _parse_money_any rule 1: (?:for|/). -/
def sepApp (l : List Char) : Option (List Char) :=
  match forTokenCI l with
  | some r => some r
  | none =>
    match l with
    | '/' :: r => some r
    | _ => none

/-- Separator of freshmarket _parse_price rule 1: (?:for|/\s*for). -/
def sepFM (l : List Char) : Option (List Char) :=
  match forTokenCI l with
  | some r => some r
  | none =>
    match l with
    | '/' :: r => forTokenCI (skipWs r)
    | _ => none

/-- The multi-buy pattern at one position:
digits, \s*, separator, \s*, optional dollar sign, \s*, price number.
Returns the quantity and the total. -/
def matchMultiAt (sep : List Char → Option (List Char)) (l : List Char) :
    Option (ℕ × ℚ) :=
  let d := l.takeWhile Char.isDigit
  if d.isEmpty then none
  else
    match sep (skipWs (l.dropWhile Char.isDigit)) with
    | none => none
    | some r2 =>
      let r3 := skipWs r2
      let r4 := match r3 with | '$' :: t => t | _ => r3
      match parseNum2 (skipWs r4) with
      | none => none
      | some (t, _) => some (digitsVal d, t)

/-- The plain currency pattern at one position: optional dollar sign, \s*,
number with up to two decimals. -/
def matchPlainAt (l : List Char) : Option ℚ :=
  let l1 := match l with | '$' :: t => t | _ => l
  match parseNum2 (skipWs l1) with
  | none => none
  | some (v, _) => some v

/-- The cents pattern at one position: digits, \s*, cent sign.  Returns the
integer number of cents. -/
def matchCentsAt (l : List Char) : Option ℚ :=
  let d := l.takeWhile Char.isDigit
  if d.isEmpty then none
  else
    match skipWs (l.dropWhile Char.isDigit) with
    | '¢' :: _ => some ((digitsVal d : ℚ))
    | _ => none

/-! ## Python round -/

/-- Round to the nearest integer, ties to even, as Python round does. -/
def roundHalfEvenZ (x : ℚ) : ℤ :=
  let f := Int.floor x
  if x - f < 1 / 2 then f
  else if (1 : ℚ) / 2 < x - f then f + 1
  else if f % 2 = 0 then f else f + 1

/-- Python round(x, nd) on our rational model of floats. -/
def pyRound (nd : ℕ) (x : ℚ) : ℚ :=
  ((roundHalfEvenZ (x * (10 : ℚ) ^ nd) : ℤ) : ℚ) / (10 : ℚ) ^ nd

/-! ## The two money parsers -/

/-- After the multi-buy rule, both parsers try the plain pattern and then the
cents pattern, in that order. -/
def plainThenCents (t : List Char) : Option ℚ :=
  match searchPos matchPlainAt t with
  | some v => some v
  | none =>
    match searchPos matchCentsAt t with
    | some n => some (n / 100)
    | none => none

/-- Input preprocessing of app.py _parse_money_any: replace non-breaking
spaces and strip. -/
def prepApp (s : String) : List Char := trimWsL (s.data.map nbspToSpace)

/-- Input preprocessing of freshmarket _parse_price: replace non-breaking
spaces only. -/
def prepFM (s : String) : List Char := s.data.map nbspToSpace

/-- app.py _parse_money_any on a string input. -/
def parseMoneyAnyStr (s : String) : Option ℚ :=
  let t := prepApp s
  match searchPos (matchMultiAt sepApp) t with
  | some (n, tot) =>
    if 0 < n then some (pyRound 2 (tot / (n : ℚ))) else plainThenCents t
  | none => plainThenCents t

/-- scrapers/freshmarket.py _parse_price. -/
def parsePriceFM (s : String) : Option ℚ :=
  let t := prepFM s
  match searchPos (matchMultiAt sepFM) t with
  | some (n, tot) =>
    if 0 < n then some (pyRound 2 (tot / (n : ℚ))) else plainThenCents t
  | none => plainThenCents t

/-- The kinds of value app.py _parse_money_any receives: Python None, a
number, or text. -/
inductive MoneyIn where
  | noneV : MoneyIn
  | num : ℚ → MoneyIn
  | str : String → MoneyIn
deriving DecidableEq

/-- app.py _parse_money_any on any input kind. -/
def parseMoneyAny : MoneyIn → Option ℚ
  | .noneV => none
  | .num q => some q
  | .str s => parseMoneyAnyStr s

/-! ## Unit extractor (freshmarket _extract_unit_info) -/

/-- The regex word-character class \w restricted to the ASCII range. -/
def isWordChar (c : Char) : Bool := c.isAlphanum || c == '_'

/-- Parse the regex piece \d+(\.\d+)? with an unbounded fraction. -/
def parseNumU (l : List Char) : Option (ℚ × List Char) :=
  let d := l.takeWhile Char.isDigit
  if d.isEmpty then none
  else
    match l.dropWhile Char.isDigit with
    | '.' :: r2 =>
      let f := r2.takeWhile Char.isDigit
      if f.isEmpty then some ((digitsVal d : ℚ), '.' :: r2)
      else some ((digitsVal d : ℚ) + (digitsVal f : ℚ) / (10 : ℚ) ^ f.length,
                 r2.dropWhile Char.isDigit)
    | r => some ((digitsVal d : ℚ), r)

def isPfx : List Char → List Char → Bool
  | [], _ => true
  | _ :: _, [] => false
  | a :: ra, b :: rb => a == b && isPfx ra rb

/-- The trailing \b of a pattern: the character following the consumed token
is absent or not a word character. -/
def bndAfter (pat rest : List Char) : Bool :=
  match rest.drop pat.length with
  | [] => true
  | c :: _ => !(isWordChar c)

/-- One quantity-unit pattern of _UNIT_PATTERNS at a position:
number, \s*, one of the unit alternatives, \b. -/
def matchQtyUnitAt (alts : List (List Char)) (l : List Char) : Option ℚ :=
  match parseNumU l with
  | none => none
  | some (q, r) =>
    let r2 := skipWs r
    if alts.any (fun a => isPfx a r2 && bndAfter a r2) then some q else none

/-- The leading \b of a pattern whose first character is a word character. -/
def leftBnd (prev : Option Char) : Bool :=
  match prev with
  | none => true
  | some c => !(isWordChar c)

/-- Leftmost search that tracks the previous character, for patterns with a
leading word boundary. -/
def searchBnd {α : Type} (m : Option Char → List Char → Option α) :
    Option Char → List Char → Option α
  | prev, [] => m prev []
  | prev, c :: r =>
    match m prev (c :: r) with
    | some v => some v
    | none => searchBnd m (some c) r

/-- A whole-word alternation such as \b(each|ea)\b at one position. -/
def matchWordAt (alts : List (List Char)) (prev : Option Char)
    (l : List Char) : Option Unit :=
  if leftBnd prev && alts.any (fun a => isPfx a l && bndAfter a l) then some ()
  else none

/-- The pattern \b(per\s*lb|lb)\b at one position. -/
def matchPerLbAt (prev : Option Char) (l : List Char) : Option Unit :=
  if !(leftBnd prev) then none
  else if isPfx ['p', 'e', 'r'] l &&
      (let r := skipWs (l.drop 3); isPfx ['l', 'b'] r && bndAfter ['l', 'b'] r)
    then some ()
  else if isPfx ['l', 'b'] l && bndAfter ['l', 'b'] l then some ()
  else none

/-- Python str.lower on our strings (ASCII-faithful). -/
def pyLower (s : String) : String := String.mk (s.data.map Char.toLower)

/-- freshmarket _extract_unit_info: checks its patterns in order, first
match wins. -/
def extractUnitInfo (s : String) : Option ℚ × Option String :=
  let t := (pyLower s).data.map nbspToSpace
  match searchPos (matchQtyUnitAt [['o', 'z']]) t with
  | some q => (some q, some "oz")
  | none =>
    match searchPos (matchQtyUnitAt [['l', 'b'], ['l', 'b', 's']]) t with
    | some q => (some q, some "lb")
    | none =>
      match searchPos (matchQtyUnitAt [['c', 't'], ['c', 'o', 'u', 'n', 't']]) t with
      | some q => (some q, some "ct")
      | none =>
        match searchPos
            (matchQtyUnitAt [['p', 'k'], ['p', 'a', 'c', 'k'], ['p', 'k', 'g']]) t with
        | some q => (some q, some "ct")
        | none =>
          match searchBnd (matchWordAt [['d', 'o', 'z', 'e', 'n']]) none t with
          | some _ => (some 12, some "ct")
          | none =>
            match searchBnd (matchWordAt [['e', 'a', 'c', 'h'], ['e', 'a']]) none t with
            | some _ => (some 1, some "ct")
            | none =>
              match searchBnd matchPerLbAt none t with
              | some _ => (none, some "lb")
              | none => (none, none)

/-! ## utils/normalize.py and the /deals route unit price -/

/-- utils/normalize.py compute_unit_price.  A Python-falsy Decimal (None or
zero) in either argument yields None; otherwise the quotient. -/
def computeUnitPrice (p q : Option ℚ) : Option ℚ :=
  match p, q with
  | some pv, some qv => if pv = 0 ∨ qv = 0 then none else some (pv / qv)
  | _, _ => none

/-- The unit_price computation inlined in the /deals route of app.py:
qty truthy, price truthy, qty positive, quotient rounded to 4 places. -/
def routeUnitPrice (price : ℚ) (qty : Option ℚ) : Option ℚ :=
  match qty with
  | none => none
  | some q =>
    if q ≠ 0 ∧ price ≠ 0 ∧ 0 < q then some (pyRound 4 (price / q)) else none

/-! ## The Deal record and the item builder -/

/-- Python str.strip. -/
def pyStrip (s : String) : String := String.mk (trimWsL s.data)

/-- The timestamp data the builders stamp onto a Deal (datetime.utcnow is an
external collaborator; the three derived strings are passed in). -/
structure Stamp where
  today : String
  plus7 : String
  iso : String
deriving DecidableEq

/-- The Deal record persisted by the scrapers, as in section 3 of the spec
and the dict literals of the source. -/
structure Deal where
  store_id : String
  item : String
  size_text : String
  price : ℚ
  unit_qty : Option ℚ
  unit : Option String
  start_date : String
  end_date : String
  promo_text : String
  source : String
  fetched_at : String
deriving DecidableEq

def fmAdUrl : String := "https://www.thefreshmarket.com/features/weekly-features"

/-- app.py _add_item: parse the price, validate the name, build the Deal.
Appending to the shared list is modelled by returning an optional Deal.
Note the source sets unit_qty and unit to None unconditionally. -/
def addItem (st : Stamp) (name : String) (price : MoneyIn)
    (sizeText : String) : Option Deal :=
  match parseMoneyAny price with
  | none => none
  | some pv =>
    if name.isEmpty ∨ (pyStrip name).length < 3 then none
    else some
      { store_id := "fresh-market-24503",
        item := (pyStrip name).take 120,
        size_text := pyStrip sizeText,
        price := pv,
        unit_qty := none,
        unit := none,
        start_date := st.today,
        end_date := st.plus7,
        promo_text := "Weekly Features",
        source := fmAdUrl,
        fetched_at := st.iso }

/-! ## Deduplication (run_and_save_both in app.py) -/

/-- The deduplication key (item.lower(), price). -/
def dkey (d : Deal) : String × ℚ := (pyLower d.item, d.price)

/-- The seen-set loop of the dedupe in run_and_save_both. -/
def dedupeAux : List Deal → List (String × ℚ) → List Deal
  | [], _ => []
  | d :: ds, seen =>
    if dkey d ∈ seen then dedupeAux ds seen
    else d :: dedupeAux ds (dkey d :: seen)

def dedupeDeals (l : List Deal) : List Deal := dedupeAux l []

/-! ## Comparison engine (/compare route) -/

/-- Python substring containment: needle in hay. -/
def strContainsL (needle : List Char) : List Char → Bool
  | [] => needle.isEmpty
  | c :: t => needle.isPrefixOf (c :: t) || strContainsL needle t

/-- The candidate filter: deals whose lowercased item contains the wanted
substring. -/
def candidatesFor (w : String) (deals : List Deal) : List Deal :=
  deals.filter (fun d => strContainsL w.data (pyLower d.item).data)

/-- The sort key of the compare route: unit price with the 9e9 sentinel for
an absent unit price, then absolute price. -/
def skey (d : Deal) : ℚ × ℚ :=
  (match computeUnitPrice (some d.price) d.unit_qty with
   | some u => u
   | none => 9000000000, d.price)

/-- Lexicographic strict comparison of Python pairs of floats. -/
def keyLt (a b : ℚ × ℚ) : Prop := a.1 < b.1 ∨ (a.1 = b.1 ∧ a.2 < b.2)

instance decKeyLt (a b : ℚ × ℚ) : Decidable (keyLt a b) :=
  inferInstanceAs (Decidable (a.1 < b.1 ∨ (a.1 = b.1 ∧ a.2 < b.2)))

/-- The element sorted(candidates, key=...)[0]: a stable minimum, keeping the
earliest element among ties. -/
def pickMin : Deal → List Deal → Deal
  | a, [] => a
  | a, y :: ys => pickMin (if keyLt (skey y) (skey a) then y else a) ys

def pickBest : List Deal → Option Deal
  | [] => none
  | d :: ds => some (pickMin d ds)

/-- The picks loop of the compare route: one best candidate per wanted item
that has candidates. -/
def picksOf (wanted : List String) (deals : List Deal) : List Deal :=
  wanted.filterMap (fun w => pickBest (candidatesFor w deals))

/-- One store_id entry of the by_store aggregation. -/
def addPick (acc : List (String × List String × ℚ)) (p : Deal) :
    List (String × List String × ℚ) :=
  if acc.any (fun e => e.1 == p.store_id) then
    acc.map (fun e =>
      if e.1 == p.store_id then (e.1, e.2.1 ++ [p.item], e.2.2 + p.price) else e)
  else acc ++ [(p.store_id, [p.item], p.price)]

/-- The JSON body returned by the compare route. -/
structure CompareOut where
  requested_items : List String
  picks : List Deal
  total_items_found : ℕ
  estimated_total : ℚ
  by_store : List (String × List String × ℚ)
deriving DecidableEq

/-- The compare route body, once the deals list is loaded. -/
def compareCore (wanted : List String) (deals : List Deal) : CompareOut :=
  let ps := picksOf wanted deals
  { requested_items := wanted,
    picks := ps,
    total_items_found := ps.length,
    estimated_total := pyRound 2 (ps.foldl (fun a p => a + p.price) 0),
    by_store := ps.foldl addPick [] }

/-- The three persisted collections the app reads from the data directory. -/
structure StoreState where
  sample : List Deal
  foodlion : List Deal
  freshmarket : List Deal

/-- The compare route: it loads only deals_sample_24503.json. -/
def compareEndpoint (st : StoreState) (wanted : List String) : CompareOut :=
  compareCore wanted st.sample

/-- The deals route: it merges all three collections and attaches the
recomputed unit_price to each deal. -/
def dealsEndpoint (st : StoreState) : List (Deal × Option ℚ) :=
  (st.sample ++ st.foodlion ++ st.freshmarket).map
    (fun d => (d, routeUnitPrice d.price d.unit_qty))

/-! ## Rendered HTML model and the raw-HTML strategy
(freshmarket _extract_deals_from_html) -/

mutual
/-- A parsed HTML node: an element with a tag name and class list, or text.
A document parsed by BeautifulSoup with lxml is rooted at an html element. -/
inductive HNode where
  | elem : String → List String → HList → HNode
  | text : String → HNode
inductive HList where
  | nil : HList
  | cons : HNode → HList → HList
end

mutual
/-- All element nodes of a subtree in document (preorder) order, the root
element included. -/
def elemsOf : HNode → List HNode
  | .text _ => []
  | .elem t cs ch => HNode.elem t cs ch :: elemsOfL ch
def elemsOfL : HList → List HNode
  | .nil => []
  | .cons h r => elemsOf h ++ elemsOfL r
end

mutual
/-- The text-node strings of a subtree in document order. -/
def stringsOf : HNode → List String
  | .text s => [s]
  | .elem _ _ ch => stringsOfL ch
def stringsOfL : HList → List String
  | .nil => []
  | .cons h r => stringsOf h ++ stringsOfL r
end

/-- The element descendants of a node, as element.select searches them. -/
def childElems : HNode → List HNode
  | .text _ => []
  | .elem _ _ ch => elemsOfL ch

/-- Python str.split() on whitespace, dropping empty pieces. -/
def wordsAux : List Char → List Char → List (List Char)
  | [], cur => if cur.isEmpty then [] else [cur.reverse]
  | c :: r, cur =>
    if isWsPy c then
      if cur.isEmpty then wordsAux r [] else cur.reverse :: wordsAux r []
    else wordsAux r (c :: cur)

/-- The normalization " ".join(txt.split()) applied to card text. -/
def squeezeWs (s : String) : String :=
  String.intercalate " " ((wordsAux s.data []).map String.mk)

/-- BeautifulSoup get_text(sep, strip=True): the stripped non-empty text
strings of the subtree joined by the separator. -/
def getTextStrip (sep : String) (n : HNode) : String :=
  String.intercalate sep
    (((stringsOf n).map pyStrip).filter (fun x => !x.isEmpty))

/-- The card text of _extract_deals_from_html:
" ".join(get_text(" ", strip=True).split()). -/
def cardText (n : HNode) : String := squeezeWs (getTextStrip " " n)

def fmCardClasses : List String :=
  ["c-card", "card", "grid__item", "product", "product-card", "tile",
   "teaser", "feature"]

def fmSweepTags : List String := ["article", "li", "div", "section"]

def fmTitleTags : List String := ["h1", "h2", "h3", "h4", "strong"]

def fmTitleClasses : List String :=
  ["title", "card__title", "product__title", "teaser__title"]

def hasAnyClass (targets : List String) : HNode → Bool
  | .elem _ cls _ => cls.any (fun c => targets.contains c)
  | .text _ => false

def hasTagIn (tags : List String) : HNode → Bool
  | .elem t _ _ => tags.contains t
  | .text _ => false

/-- The first, class-based card selector of _extract_deals_from_html. -/
def selectClasses (root : HNode) : List HNode :=
  (elemsOf root).filter (hasAnyClass fmCardClasses)

/-- The fallback sweep selector "article, li, div, section". -/
def selectSweep (root : HNode) : List HNode :=
  (elemsOf root).filter (hasTagIn fmSweepTags)

/-- The title-ish descendant selector inside one card. -/
def titleNodes (card : HNode) : List HNode :=
  (childElems card).filter
    (fun n => hasTagIn fmTitleTags n || hasAnyClass fmTitleClasses n)

def hasChar (ch : Char) (s : String) : Bool := s.data.any (fun c => c == ch)

/-- The explicit title loop: first title-ish descendant whose text is
non-empty, currency-free and longer than two characters. -/
def firstTitleName (card : HNode) : Option String :=
  (titleNodes card).findSome? (fun tag =>
    let t := getTextStrip " " tag
    if !t.isEmpty && !hasChar '$' t && !hasChar '¢' t && t.length > 2 then
      some t
    else none)

/-- Case-insensitive literal prefix test. -/
def ciPfx : List Char → List Char → Bool
  | [], _ => true
  | _ :: _, [] => false
  | a :: ra, b :: rb => a.toLower == b.toLower && ciPfx ra rb

/-- One size-hint pattern at a position: a case-insensitive literal wrapped
in word boundaries. -/
def matchHintAt (hint : List Char) (prev : Option Char) (l : List Char) :
    Option Unit :=
  if leftBnd prev && ciPfx hint l && bndAfter hint l then some () else none

def searchHint (hint : String) (txt : String) : Bool :=
  match searchBnd (matchHintAt hint.data) none txt.data with
  | some _ => true
  | none => false

def sizeHints : List String :=
  ["per lb", "lb", "oz", "dozen", "each", "ea", "ct", "pk", "pack"]

/-- The size-hint loop: the first hint found in the card text, else empty. -/
def sizeHintOf (txt : String) : String :=
  match sizeHints.find? (fun h => searchHint h txt) with
  | some h => h
  | none => ""

/-- The text before the first occurrence of a character. -/
def beforeChar (ch : Char) (s : String) : String :=
  String.mk (s.data.takeWhile (fun c => !(c == ch)))

/-- The fallback name: the stripped text before the first currency symbol. -/
def fallbackName (txt : String) : String :=
  if hasChar '$' txt then pyStrip (beforeChar '$' txt)
  else if hasChar '¢' txt then pyStrip (beforeChar '¢' txt)
  else txt

/-- The per-card logic of _extract_deals_from_html: currency gate, price
parse, name resolution, size hint and unit extraction. -/
def cardInfo (card : HNode) :
    Option (String × ℚ × String × Option ℚ × Option String) :=
  let txt := cardText card
  if !(hasChar '$' txt || hasChar '¢' txt) then none
  else
    match parsePriceFM txt with
    | none => none
    | some price =>
      match firstTitleName card with
      | some nm =>
        some (nm, price, sizeHintOf txt,
              (extractUnitInfo txt).1, (extractUnitInfo txt).2)
      | none =>
        let nm := fallbackName txt
        if nm.length < 3 then none
        else
          some (nm, price, sizeHintOf txt,
                (extractUnitInfo txt).1, (extractUnitInfo txt).2)

/-- The Deal dict literal built per card by _extract_deals_from_html. -/
def mkFMDeal (st : Stamp) (nm : String) (pr : ℚ) (sz : String)
    (uq : Option ℚ) (u : Option String) : Deal :=
  { store_id := "fresh-market-24503",
    item := nm.take 120,
    size_text := sz,
    price := pr,
    unit_qty := uq,
    unit := u,
    start_date := st.today,
    end_date := st.plus7,
    promo_text := "Weekly Features",
    source := fmAdUrl,
    fetched_at := st.iso }

/-- The card loop with its local (name.lower(), price) seen set. -/
def processCards (st : Stamp) : List HNode → List (String × ℚ) → List Deal
  | [], _ => []
  | c :: cs, seen =>
    match cardInfo c with
    | none => processCards st cs seen
    | some (nm, pr, sz, uq, u) =>
      if (pyLower nm, pr) ∈ seen then processCards st cs seen
      else mkFMDeal st nm pr sz uq u :: processCards st cs ((pyLower nm, pr) :: seen)

/-- freshmarket _extract_deals_from_html: the class selector pass, falling
back to the tag sweep when it produced no items. -/
def extractDealsFromHtml (st : Stamp) (root : HNode) : List Deal :=
  let first := processCards st (selectClasses root) []
  if first.isEmpty then processCards st (selectSweep root) [] else first

/-! ## Captured-JSON strategy (the walk in run_and_save_both) -/

mutual
/-- A JSON value as decoded by resp.json(). -/
inductive J where
  | num : ℚ → J
  | str : String → J
  | null : J
  | arr : JList → J
  | obj : JObj → J
inductive JList where
  | nil : JList
  | cons : J → JList → JList
inductive JObj where
  | nil : JObj
  | cons : String → J → JObj → JObj
end

/-- dict.get: the first binding of a key. -/
def jGet : JObj → String → Option J
  | .nil, _ => none
  | .cons k v t, key => if k == key then some v else jGet t key

/-- Python truthiness of a decoded JSON value. -/
def jTruthy : J → Bool
  | .null => false
  | .num q => !(q == 0)
  | .str s => !s.isEmpty
  | .arr .nil => false
  | .arr (.cons _ _) => true
  | .obj .nil => false
  | .obj (.cons _ _ _) => true

/-- The or-chain obj.get(a) or obj.get(b) or ... gated by truthiness. -/
def firstTruthy (o : JObj) : List String → Option J
  | [] => none
  | k :: ks =>
    match jGet o k with
    | some v => if jTruthy v then some v else firstTruthy o ks
    | none => firstTruthy o ks

mutual
/-- Python repr of a decoded JSON value, as used by str() on containers.
The decimal rendering of a non-integer float is a model boundary (written as
a fraction here); no verified claim exercises it. -/
def pyReprJ : J → String
  | .num q =>
    if q.den = 1 then toString q.num ++ ".0"
    else toString q.num ++ "/" ++ toString q.den
  | .str s => "'" ++ s ++ "'"
  | .null => "None"
  | .arr l => "[" ++ pyReprL l ++ "]"
  | .obj o => "\x7b" ++ pyReprO o ++ "\x7d"
def pyReprL : JList → String
  | .nil => ""
  | .cons v .nil => pyReprJ v
  | .cons v t => pyReprJ v ++ ", " ++ pyReprL t
def pyReprO : JObj → String
  | .nil => ""
  | .cons k v .nil => "'" ++ k ++ "': " ++ pyReprJ v
  | .cons k v t => "'" ++ k ++ "': " ++ pyReprJ v ++ ", " ++ pyReprO t
end

/-- Python str() of a decoded JSON value. -/
def pyStrTop : J → String
  | .str s => s
  | v => pyReprJ v

/-- How a candidate price field value enters _parse_money_any. -/
def jToMoney : Option J → MoneyIn
  | none => .noneV
  | some .null => .noneV
  | some (.num q) => .num q
  | some (.str s) => .str s
  | some v => .str (pyStrTop v)

def nameFieldNames : List String :=
  ["name", "title", "headline", "productName", "description", "primaryText",
   "tileHeadline", "eyebrow"]

def priceFieldNames : List String :=
  ["price", "salePrice", "sale_price", "priceValue", "priceText",
   "formattedPrice", "amount", "value", "regularPrice", "finalPrice",
   "wasPrice", "nowPrice", "currentPrice", "pricePerPound", "price_per",
   "tilePrice", "priceString"]

def textFieldNames : List String :=
  ["copy", "body", "text", "subtitle", "blurb", "richText", "html",
   "content", "secondaryText", "tileSubheadline", "tileCopy"]

def sizeFieldNames : List String :=
  ["unit", "uom", "size", "sizeText", "unitOfMeasure", "unitText",
   "priceUnit"]

/-- The cand_prices list of the walk: the explicit price fields, the nested
price object fields, then the values parsed out of marketing text fields. -/
def candMoneyList (o : JObj) : List MoneyIn :=
  let base := priceFieldNames.map (fun k => jToMoney (jGet o k))
  let nested :=
    match jGet o "price" with
    | some (.obj po) =>
      ["amount", "value", "current", "sale"].map (fun k => jToMoney (jGet po k))
    | _ => []
  let texts := textFieldNames.filterMap
    (fun k => (parseMoneyAny (jToMoney (jGet o k))).map MoneyIn.num)
  base ++ nested ++ texts

/-- The size hint passed to _add_item.  A truthy non-string value would raise
AttributeError on strip in the source; its string rendering stands in here
and is never exercised by a claim. -/
def sizeHintStr (o : JObj) : String :=
  match firstTruthy o sizeFieldNames with
  | none => ""
  | some v => pyStrTop v

/-- The per-object emission of the walk: when a truthy name is present, one
_add_item call per non-None candidate price. -/
def emitNode (st : Stamp) (o : JObj) : List Deal :=
  match firstTruthy o nameFieldNames with
  | none => []
  | some nv =>
    (candMoneyList o).filterMap (fun cp =>
      match cp with
      | .noneV => none
      | _ => addItem st (pyStrTop nv) cp (sizeHintStr o))

mutual
/-- The recursive walk of run_and_save_both over captured JSON. -/
def walkJ (st : Stamp) : J → List Deal
  | .obj o => emitNode st o ++ walkO st o
  | .arr l => walkL st l
  | _ => []
def walkL (st : Stamp) : JList → List Deal
  | .nil => []
  | .cons v t => walkJ st v ++ walkL st t
def walkO (st : Stamp) : JObj → List Deal
  | .nil => []
  | .cons _ v t => walkJ st v ++ walkO st t
end

/-- The final strategy selection and dedupe of run_and_save_both: keep the
JSON candidates when there are any, else run the raw-HTML parser; then
deduplicate on (item.lower(), price). -/
def runPipeline (itemsFromJson : List Deal) (st : Stamp) (root : HNode) :
    List Deal :=
  dedupeDeals
    (if itemsFromJson.isEmpty then extractDealsFromHtml st root
     else itemsFromJson)

/-! ## Concrete inputs used by the theorems -/

/-- A fixed timestamp stamp for concrete runs. -/
def stamp0 : Stamp :=
  { today := "2026-10-12", plus7 := "2026-10-19", iso := "2026-10-12T00:00:00" }

/-- The rendered document of the spec test: <div>Milk 1 Gallon $3.49</div>,
wrapped in the html and body elements lxml adds around a fragment. -/
def milkDoc : HNode :=
  HNode.elem "html" [] (HList.cons
    (HNode.elem "body" [] (HList.cons
      (HNode.elem "div" [] (HList.cons
        (HNode.text "Milk 1 Gallon $3.49") HList.nil)) HList.nil)) HList.nil)

/-- A card whose text carries the quantity-unit pattern 32 oz. -/
def butterDoc : HNode :=
  HNode.elem "html" [] (HList.cons
    (HNode.elem "body" [] (HList.cons
      (HNode.elem "div" [] (HList.cons
        (HNode.text "Butter 32 oz $3.99") HList.nil)) HList.nil)) HList.nil)

/-- A captured-JSON object node with one name field and three parseable
price fields. -/
def appleNode : J :=
  J.obj (JObj.cons "name" (J.str "Apple Juice")
        (JObj.cons "price" (J.num (299 / 100))
        (JObj.cons "regularPrice" (J.num (399 / 100))
        (JObj.cons "salePrice" (J.num (249 / 100)) JObj.nil))))

/-- The sample deal Chicken Breast of the spec comparison test. -/
def dealCB : Deal :=
  { store_id := "sample-1", item := "Chicken Breast", size_text := "",
    price := 499 / 100, unit_qty := some 1, unit := some "lb",
    start_date := "", end_date := "", promo_text := "", source := "",
    fetched_at := "" }

/-- The sample deal Whole Chicken of the spec comparison test. -/
def dealWC : Deal :=
  { store_id := "sample-1", item := "Whole Chicken", size_text := "",
    price := 899 / 100, unit_qty := some 4, unit := some "lb",
    start_date := "", end_date := "", promo_text := "", source := "",
    fetched_at := "" }

/-- A candidate whose unit price exceeds the 9e9 sentinel of the code. -/
def dealHiU : Deal :=
  { store_id := "sample-1", item := "xa pricey", size_text := "",
    price := 9100000000, unit_qty := some 1, unit := some "ct",
    start_date := "", end_date := "", promo_text := "", source := "",
    fetched_at := "" }

/-- A candidate without a unit price. -/
def dealLoU : Deal :=
  { store_id := "sample-1", item := "xb cheap", size_text := "",
    price := 5, unit_qty := none, unit := none,
    start_date := "", end_date := "", promo_text := "", source := "",
    fetched_at := "" }

/-- The Deal the builder produces for Butter with size hint 32 oz. -/
def builtButter : Deal :=
  { store_id := "fresh-market-24503", item := "Butter", size_text := "32 oz",
    price := 399 / 100, unit_qty := none, unit := none,
    start_date := "2026-10-12", end_date := "2026-10-19",
    promo_text := "Weekly Features", source := fmAdUrl,
    fetched_at := "2026-10-12T00:00:00" }

/-! ## The sort key the spec describes, with a true plus-infinity -/

/-- The comparison key as worded in the spec: unit price when present, plus
infinity when absent.  None stands for plus infinity in the first slot. -/
def infKey (d : Deal) : Option ℚ × ℚ :=
  (computeUnitPrice (some d.price) d.unit_qty, d.price)

/-- Strict order on the first slot with none as plus infinity. -/
def infLtFst : Option ℚ → Option ℚ → Prop
  | some a, some b => a < b
  | some _, none => True
  | none, _ => False

instance decInfLtFst (a b : Option ℚ) : Decidable (infLtFst a b) :=
  match a, b with
  | some x, some y => inferInstanceAs (Decidable (x < y))
  | some _, none => inferInstanceAs (Decidable True)
  | none, some _ => inferInstanceAs (Decidable False)
  | none, none => inferInstanceAs (Decidable False)

/-- Lexicographic strict order on the spec key with a plus-infinity slot. -/
def infLt (a b : Option ℚ × ℚ) : Prop :=
  infLtFst a.1 b.1 ∨ (a.1 = b.1 ∧ a.2 < b.2)

instance decInfLt (a b : Option ℚ × ℚ) : Decidable (infLt a b) :=
  inferInstanceAs (Decidable (infLtFst a.1 b.1 ∨ (a.1 = b.1 ∧ a.2 < b.2)))

/-! ## Helper lemmas -/

theorem keyLt_irrefl (a : ℚ × ℚ) : ¬ keyLt a a := by
  rintro (h | ⟨-, h⟩) <;> exact lt_irrefl _ h

theorem keyLt_trans {a b c : ℚ × ℚ} (h1 : keyLt a b) (h2 : keyLt b c) :
    keyLt a c := by
  rcases h1 with h1 | ⟨e1, h1⟩ <;> rcases h2 with h2 | ⟨e2, h2⟩
  · exact Or.inl (lt_trans h1 h2)
  · exact Or.inl (e2 ▸ h1)
  · exact Or.inl (e1 ▸ h2)
  · exact Or.inr ⟨e1.trans e2, lt_trans h1 h2⟩

theorem keyLt_resolve {a b : ℚ × ℚ} (h : ¬ keyLt a b) :
    keyLt b a ∨ b = a := by
  rcases lt_trichotomy b.1 a.1 with h1 | h1 | h1
  · exact Or.inl (Or.inl h1)
  · rcases lt_trichotomy b.2 a.2 with h2 | h2 | h2
    · exact Or.inl (Or.inr ⟨h1, h2⟩)
    · exact Or.inr (Prod.ext h1 h2)
    · exact absurd (Or.inr ⟨h1.symm, h2⟩) h
  · exact absurd (Or.inl h1) h

theorem pickMin_mem (l : List Deal) : ∀ a : Deal,
    pickMin a l = a ∨ pickMin a l ∈ l := by
  induction l with
  | nil => intro a; exact Or.inl rfl
  | cons y ys ih =>
    intro a
    simp only [pickMin]
    rcases ih (if keyLt (skey y) (skey a) then y else a) with h | h
    · rw [h]
      by_cases hc : keyLt (skey y) (skey a)
      · simp [hc]
      · simp [hc]
    · exact Or.inr (List.mem_cons_of_mem _ h)

theorem pickMin_not_lt (l : List Deal) : ∀ a x : Deal,
    (x = a ∨ x ∈ l) → ¬ keyLt (skey x) (skey (pickMin a l)) := by
  induction l with
  | nil =>
    intro a x hx h
    rcases hx with rfl | hx
    · exact keyLt_irrefl _ h
    · cases hx
  | cons y ys ih =>
    intro a x hx hlt
    simp only [pickMin] at hlt
    by_cases hc : keyLt (skey y) (skey a)
    · rw [if_pos hc] at hlt
      rcases hx with rfl | hx
      · exact ih y y (Or.inl rfl) (keyLt_trans hc hlt)
      · rcases List.mem_cons.mp hx with rfl | hx
        · exact ih x x (Or.inl rfl) hlt
        · exact ih y x (Or.inr hx) hlt
    · rw [if_neg hc] at hlt
      rcases hx with rfl | hx
      · exact ih x x (Or.inl rfl) hlt
      · rcases List.mem_cons.mp hx with rfl | hx
        · rcases keyLt_resolve hc with h1 | h1
          · exact ih a a (Or.inl rfl) (keyLt_trans h1 hlt)
          · exact ih a a (Or.inl rfl) (h1 ▸ hlt)
        · exact ih a x (Or.inr hx) hlt

theorem dedupeAux_sublist : ∀ (l : List Deal) (seen : List (String × ℚ)),
    List.Sublist (dedupeAux l seen) l := by
  intro l
  induction l with
  | nil => intro seen; simp [dedupeAux]
  | cons x xs ih =>
    intro seen
    simp only [dedupeAux]
    by_cases h : dkey x ∈ seen
    · rw [if_pos h]; exact (ih seen).cons x
    · rw [if_neg h]; exact (ih _).cons₂ x

theorem dedupeAux_not_seen : ∀ (l : List Deal) (seen : List (String × ℚ))
    (d : Deal), d ∈ dedupeAux l seen → dkey d ∉ seen := by
  intro l
  induction l with
  | nil => intro seen d h; simp [dedupeAux] at h
  | cons x xs ih =>
    intro seen d h
    simp only [dedupeAux] at h
    by_cases hx : dkey x ∈ seen
    · rw [if_pos hx] at h; exact ih seen d h
    · rw [if_neg hx] at h
      rcases List.mem_cons.mp h with rfl | h
      · exact hx
      · intro hc
        exact ih _ d h (List.mem_cons_of_mem _ hc)

theorem dedupeAux_pairwise : ∀ (l : List Deal) (seen : List (String × ℚ)),
    List.Pairwise (fun a b => dkey a ≠ dkey b) (dedupeAux l seen) := by
  intro l
  induction l with
  | nil => intro seen; simp [dedupeAux]
  | cons x xs ih =>
    intro seen
    simp only [dedupeAux]
    by_cases hx : dkey x ∈ seen
    · rw [if_pos hx]; exact ih seen
    · rw [if_neg hx]
      refine List.Pairwise.cons ?_ (ih _)
      intro b hb heq
      exact dedupeAux_not_seen xs _ b hb (heq ▸ List.mem_cons_self _ _)

theorem dedupeAux_first : ∀ (l : List Deal) (seen : List (String × ℚ))
    (d : Deal), d ∈ dedupeAux l seen →
    List.find? (fun x => decide (dkey x = dkey d)) l = some d := by
  intro l
  induction l with
  | nil => intro seen d h; simp [dedupeAux] at h
  | cons x xs ih =>
    intro seen d h
    simp only [dedupeAux] at h
    by_cases hx : dkey x ∈ seen
    · rw [if_pos hx] at h
      have hne : dkey x ≠ dkey d := by
        intro heq
        exact dedupeAux_not_seen xs seen d h (heq ▸ hx)
      rw [List.find?_cons_of_neg _ (by simpa using hne)]
      exact ih seen d h
    · rw [if_neg hx] at h
      rcases List.mem_cons.mp h with rfl | h
      · rw [List.find?_cons_of_pos _ (by simp)]
      · have hne : dkey x ≠ dkey d := by
          intro heq
          exact dedupeAux_not_seen xs _ d h (heq ▸ List.mem_cons_self _ _)
        rw [List.find?_cons_of_neg _ (by simpa using hne)]
        exact ih _ d h

theorem parseNum2_nonneg {l : List Char} {q : ℚ} {r : List Char}
    (h : parseNum2 l = some (q, r)) : 0 ≤ q := by
  simp only [parseNum2] at h
  split at h
  · exact absurd h (by simp)
  · split at h
    · split at h
      · simp only [Option.some.injEq, Prod.mk.injEq] at h
        obtain ⟨hq, -⟩ := h
        subst hq
        positivity
      · simp only [Option.some.injEq, Prod.mk.injEq] at h
        obtain ⟨hq, -⟩ := h
        subst hq
        positivity
    · simp only [Option.some.injEq, Prod.mk.injEq] at h
      obtain ⟨hq, -⟩ := h
      subst hq
      positivity

theorem searchPos_pred {α : Type} (m : List Char → Option α) (P : α → Prop)
    (hm : ∀ l v, m l = some v → P v) :
    ∀ l v, searchPos m l = some v → P v := by
  intro l
  induction l with
  | nil =>
    intro v h
    simp only [searchPos] at h
    exact hm [] v h
  | cons c r ih =>
    intro v h
    simp only [searchPos] at h
    cases hc : m (c :: r) with
    | some w =>
      rw [hc] at h
      injection h with h
      subst h
      exact hm _ _ hc
    | none =>
      rw [hc] at h
      exact ih v h

theorem matchPlainAt_nonneg : ∀ (l : List Char) (v : ℚ),
    matchPlainAt l = some v → 0 ≤ v := by
  intro l v h
  simp only [matchPlainAt] at h
  split at h
  · exact absurd h (by simp)
  · injection h with h
    subst h
    rename_i q r heq
    exact parseNum2_nonneg heq

theorem matchCentsAt_nonneg : ∀ (l : List Char) (v : ℚ),
    matchCentsAt l = some v → 0 ≤ v := by
  intro l v h
  simp only [matchCentsAt] at h
  split at h
  · exact absurd h (by simp)
  · split at h
    · injection h with h
      subst h
      positivity
    · exact absurd h (by simp)

theorem matchMultiAt_snd_nonneg (sep : List Char → Option (List Char)) :
    ∀ (l : List Char) (p : ℕ × ℚ),
    matchMultiAt sep l = some p → 0 ≤ p.2 := by
  intro l p h
  simp only [matchMultiAt] at h
  split at h
  · exact absurd h (by simp)
  · split at h
    · exact absurd h (by simp)
    · split at h
      · exact absurd h (by simp)
      · injection h with h
        subst h
        rename_i t rest heq
        exact parseNum2_nonneg heq

theorem roundHalfEvenZ_nonneg {x : ℚ} (hx : 0 ≤ x) : 0 ≤ roundHalfEvenZ x := by
  have hf : (0 : ℤ) ≤ Int.floor x := Int.floor_nonneg.mpr hx
  simp only [roundHalfEvenZ]
  split
  · exact hf
  · split
    · omega
    · split
      · exact hf
      · omega

theorem pyRound_nonneg (nd : ℕ) {x : ℚ} (hx : 0 ≤ x) : 0 ≤ pyRound nd x := by
  refine div_nonneg ?_ (by positivity)
  exact_mod_cast roundHalfEvenZ_nonneg (mul_nonneg hx (by positivity))

theorem plainThenCents_nonneg : ∀ (t : List Char) (v : ℚ),
    plainThenCents t = some v → 0 ≤ v := by
  intro t v h
  simp only [plainThenCents] at h
  split at h
  · injection h with h
    subst h
    rename_i w heq
    exact searchPos_pred matchPlainAt (fun x => 0 ≤ x) matchPlainAt_nonneg t w heq
  · split at h
    · injection h with h
      subst h
      rename_i n heq
      have hn := searchPos_pred matchCentsAt (fun x => 0 ≤ x) matchCentsAt_nonneg t n heq
      positivity
    · exact absurd h (by simp)

theorem moneyShape_nonneg (sep : List Char → Option (List Char))
    (t : List Char) (v : ℚ)
    (h : (match searchPos (matchMultiAt sep) t with
          | some (n, tot) =>
            if 0 < n then some (pyRound 2 (tot / (n : ℚ)))
            else plainThenCents t
          | none => plainThenCents t) = some v) : 0 ≤ v := by
  split at h
  · rename_i n tot heq
    split at h
    · injection h with h
      subst h
      have ht : (0 : ℚ) ≤ tot :=
        searchPos_pred (matchMultiAt sep) (fun p => 0 ≤ p.2)
          (matchMultiAt_snd_nonneg sep) t (n, tot) heq
      exact pyRound_nonneg 2 (div_nonneg ht (by positivity))
    · exact plainThenCents_nonneg t v h
  · exact plainThenCents_nonneg t v h

theorem parseMoneyAnyStr_nonneg (s : String) (v : ℚ)
    (h : parseMoneyAnyStr s = some v) : 0 ≤ v :=
  moneyShape_nonneg sepApp (prepApp s) v h

theorem parsePriceFM_nonneg (s : String) (v : ℚ)
    (h : parsePriceFM s = some v) : 0 ≤ v :=
  moneyShape_nonneg sepFM (prepFM s) v h

theorem addItem_some_shape (st : Stamp) (nm : String) (p : MoneyIn)
    (sz : String) (d : Deal) (h : addItem st nm p sz = some d) :
    ∃ pv, parseMoneyAny p = some pv ∧ d.price = pv ∧
      d.unit_qty = none ∧ d.unit = none := by
  simp only [addItem] at h
  split at h
  · exact absurd h (by simp)
  · rename_i pv heq
    split at h
    · exact absurd h (by simp)
    · simp only [Option.some.injEq] at h
      subst h
      exact ⟨pv, heq, rfl, rfl, rfl⟩

theorem cardInfo_price_nonneg (c : HNode) (nm : String) (pr : ℚ)
    (sz : String) (uq : Option ℚ) (u : Option String)
    (h : cardInfo c = some (nm, pr, sz, uq, u)) : 0 ≤ pr := by
  simp only [cardInfo] at h
  split at h
  · exact absurd h (by simp)
  · split at h
    · exact absurd h (by simp)
    · rename_i price hprice
      split at h
      · simp only [Option.some.injEq, Prod.mk.injEq] at h
        obtain ⟨-, hp, -⟩ := h
        exact hp ▸ parsePriceFM_nonneg _ _ hprice
      · split at h
        · exact absurd h (by simp)
        · simp only [Option.some.injEq, Prod.mk.injEq] at h
          obtain ⟨-, hp, -⟩ := h
          exact hp ▸ parsePriceFM_nonneg _ _ hprice

theorem processCards_price_nonneg (st : Stamp) :
    ∀ (cards : List HNode) (seen : List (String × ℚ)) (d : Deal),
    d ∈ processCards st cards seen → 0 ≤ d.price := by
  intro cards
  induction cards with
  | nil => intro seen d h; simp [processCards] at h
  | cons c cs ih =>
    intro seen d h
    simp only [processCards] at h
    split at h
    · exact ih seen d h
    · rename_i nm pr sz uq u heq
      split at h
      · exact ih seen d h
      · rcases List.mem_cons.mp h with rfl | h
        · exact cardInfo_price_nonneg c nm pr sz uq u heq
        · exact ih _ d h

theorem extractDeals_price_nonneg (st : Stamp) (root : HNode) (d : Deal)
    (h : d ∈ extractDealsFromHtml st root) : 0 ≤ d.price := by
  simp only [extractDealsFromHtml] at h
  split at h
  · exact processCards_price_nonneg st _ _ d h
  · exact processCards_price_nonneg st _ _ d h

/-! ## Claim theorems -/

/-- C1: when strategies 1 to 3 yield nothing, the raw-HTML strategy runs on
the rendered HTML; on the document <div>Milk 1 Gallon $3.49</div> it emits
one Deal whose item is "Milk 1 Gallon" and whose price is 1, not the 3.49
the claim requires: the plain-currency rule of _parse_price matches the
first number of the card text, the 1 of "1 Gallon", before the dollar
amount. -/
theorem c1_milk_html_pipeline_eval (st : Stamp) :
    (runPipeline [] st milkDoc).map (fun d => (d.item, d.price)) =
      [("Milk 1 Gallon", 1)] ∧ (1 : ℚ) ≠ 349 / 100 :=
  ⟨rfl, by norm_num⟩

/-- C2: on the input "99¢" both money parsers return 99, not 0.99: the
plain-currency rule is checked before the cents rule and already matches
the digits, so the cents rule is unreachable for any digit-bearing input,
although it would have produced 99 / 100. -/
theorem c2_cents_rule_eval :
    parseMoneyAnyStr "99¢" = some 99 ∧ parsePriceFM "99¢" = some 99 ∧
    (searchPos matchCentsAt (prepApp "99¢")).map (fun n => n / 100) =
      some (99 / 100 : ℚ) :=
  ⟨rfl, rfl, rfl⟩

/-- C3 counterexample: the code compares with the finite sentinel 9e9, not
plus infinity.  With a candidate whose unit price is 9.1e9 and a candidate
without a unit price, the code picks the latter although the former
strictly precedes it in the spec ordering with a true plus infinity. -/
theorem c3_sentinel_not_infinity_cex :
    (compareCore ["x"] [dealHiU, dealLoU]).picks = [dealLoU] ∧
    dealHiU ∈ candidatesFor "x" [dealHiU, dealLoU] ∧
    infLt (infKey dealHiU) (infKey dealLoU) ∧
    dealHiU ≠ dealLoU := by decide!

/-- C3 (amended): for each wanted item with candidates, compare selects a
candidate minimizing the tuple (unit_price when present, else the sentinel
9e9, then price); on the chicken example it picks Whole Chicken. -/
theorem c3_compare_pick_minimal :
    (∀ (w : String) (deals : List Deal) (b : Deal),
        pickBest (candidatesFor w deals) = some b →
        b ∈ candidatesFor w deals ∧
        ∀ d ∈ candidatesFor w deals, ¬ keyLt (skey d) (skey b)) ∧
    (compareCore ["chicken"] [dealCB, dealWC]).picks.map Deal.item =
      ["Whole Chicken"] := by
  constructor
  · intro w deals b hb
    cases hL : candidatesFor w deals with
    | nil => rw [hL] at hb; exact absurd hb (by simp [pickBest])
    | cons c cs =>
      rw [hL] at hb
      simp only [pickBest, Option.some.injEq] at hb
      subst hb
      constructor
      · rcases pickMin_mem cs c with h | h
        · rw [h]; exact List.mem_cons_self _ _
        · exact List.mem_cons_of_mem _ h
      · intro d hd
        rcases List.mem_cons.mp hd with rfl | hd
        · exact pickMin_not_lt cs d d (Or.inl rfl)
        · exact pickMin_not_lt cs c d (Or.inr hd)
  · decide!

theorem c3_compare_pick_minimal_wit :
    dealWC ∈ candidatesFor "chicken" [dealCB, dealWC] ∧
    ¬ keyLt (skey dealCB) (skey dealWC) := by
  have h := c3_compare_pick_minimal.1 "chicken" [dealCB, dealWC] dealWC
    (by decide!)
  exact ⟨h.1, h.2 dealCB (by decide!)⟩

/-- C4 counterexample: the captured-JSON builder _add_item never runs the
unit extractor: with size hint "32 oz", which the extractor recognizes as
(32, oz), the built Deal still carries absent unit_qty and unit. -/
theorem c4_builder_ignores_units_cex :
    (addItem stamp0 "Butter" (MoneyIn.str "$3.99") "32 oz").map
      (fun d => (d.unit_qty, d.unit)) = some (none, none) ∧
    extractUnitInfo "32 oz" = (some 32, some "oz") :=
  ⟨rfl, by decide!⟩

/-- C4 (amended): only the raw-HTML strategy runs the unit extractor over
the card text; every Deal built by _add_item has absent unit_qty and unit
regardless of the size hint, while the raw-HTML strategy populates them,
as on the card "Butter 32 oz $3.99". -/
theorem c4_unit_population_split :
    (∀ (st : Stamp) (nm : String) (p : MoneyIn) (sz : String) (d : Deal),
        addItem st nm p sz = some d → d.unit_qty = none ∧ d.unit = none) ∧
    (∀ st : Stamp,
        (extractDealsFromHtml st butterDoc).map
          (fun d => (d.unit_qty, d.unit)) = [(some 32, some "oz")]) := by
  constructor
  · intro st nm p sz d h
    obtain ⟨pv, -, -, h1, h2⟩ := addItem_some_shape st nm p sz d h
    exact ⟨h1, h2⟩
  · intro st; rfl

theorem c4_unit_population_split_wit :
    builtButter.unit_qty = none ∧ builtButter.unit = none :=
  c4_unit_population_split.1 stamp0 "Butter" (MoneyIn.str "$3.99") "32 oz"
    builtButter (by decide!)

/-- C5 counterexample: the builder accepts a Deal with price zero: the
input "$0" parses to 0, which is not None, and no positivity check is
performed, so a Deal with price 0 enters the collection, violating
price > 0. -/
theorem c5_zero_price_accepted_cex :
    (addItem stamp0 "Soda Pop" (MoneyIn.str "$0") "").map Deal.price =
      some 0 :=
  rfl

/-- C5 (amended): every Deal the builder accepts from a text price has a
non-negative price, and so does every Deal of the raw-HTML strategy, but
zero is accepted: the only check is that the parse did not fail. -/
theorem c5_accepted_price_nonneg :
    (∀ (st : Stamp) (nm t sz : String) (d : Deal),
        addItem st nm (MoneyIn.str t) sz = some d → 0 ≤ d.price) ∧
    (∀ (st : Stamp) (root : HNode) (d : Deal),
        d ∈ extractDealsFromHtml st root → 0 ≤ d.price) := by
  constructor
  · intro st nm t sz d h
    obtain ⟨pv, hp, hpr, -, -⟩ := addItem_some_shape st nm (MoneyIn.str t) sz d h
    rw [hpr]
    exact parseMoneyAnyStr_nonneg t pv hp
  · intro st root d h
    exact extractDeals_price_nonneg st root d h

theorem c5_accepted_price_nonneg_wit : 0 ≤ builtButter.price :=
  c5_accepted_price_nonneg.1 stamp0 "Butter" "$3.99" "32 oz" builtButter
    (by decide!)

/-- C6 counterexample: freshmarket _parse_price does not implement the
"N/$T" form: its separator requires the word for, so on "2/$5" the plain
rule matches the leading 2 and the parser returns 2 instead of 2.50. -/
theorem c6_slash_form_cex :
    parsePriceFM "2/$5" = some 2 ∧ (2 : ℚ) ≠ 5 / 2 :=
  ⟨by decide!, by norm_num⟩

/-- C6 (amended): the app-level parser maps any input on which its
multi-buy rule fires with positive N to round(T / N, 2), and handles both
"N for $T" and "N/$T"; the freshmarket parser handles only the for form. -/
theorem c6_multibuy_rule :
    (∀ (s : String) (n : ℕ) (tot : ℚ),
        searchPos (matchMultiAt sepApp) (prepApp s) = some (n, tot) →
        0 < n →
        parseMoneyAnyStr s = some (pyRound 2 (tot / (n : ℚ)))) ∧
    parseMoneyAnyStr "2 for $5" = some (5 / 2) ∧
    parseMoneyAnyStr "2/$5" = some (5 / 2) ∧
    parsePriceFM "2 for $5" = some (5 / 2) := by
  refine ⟨?_, by decide!, by decide!, by decide!⟩
  intro s n tot h hn
  simp only [parseMoneyAnyStr]
  rw [h]
  simp [hn]

theorem c6_multibuy_rule_wit :
    parseMoneyAnyStr "2 for $5" = some (pyRound 2 ((5 : ℚ) / ((2 : ℕ) : ℚ))) :=
  c6_multibuy_rule.1 "2 for $5" 2 5 (by decide!) (by norm_num)

/-- C7: dedupe keeps exactly the first occurrence of each
(item.lower(), price) key: the output is a subsequence of the input (so
survivors keep first-seen order), no two survivors share a key, and every
survivor is the first element of the input with its key. -/
theorem c7_dedupe_first_occurrence (l : List Deal) :
    List.Sublist (dedupeDeals l) l ∧
    List.Pairwise (fun a b => dkey a ≠ dkey b) (dedupeDeals l) ∧
    ∀ d ∈ dedupeDeals l,
      List.find? (fun x => decide (dkey x = dkey d)) l = some d := by
  refine ⟨dedupeAux_sublist l [], dedupeAux_pairwise l [], ?_⟩
  intro d hd
  exact dedupeAux_first l [] d hd

theorem c7_dedupe_first_occurrence_wit :
    List.Sublist (dedupeDeals [dealCB, dealCB, dealWC]) [dealCB, dealCB, dealWC] ∧
    List.find? (fun x => decide (dkey x = dkey dealWC))
      [dealCB, dealCB, dealWC] = some dealWC := by
  have h := c7_dedupe_first_occurrence [dealCB, dealCB, dealWC]
  exact ⟨h.1, h.2.2 dealWC (by decide!)⟩

/-- C8 counterexample: compute_unit_price checks only truthiness, not
positivity, of the quantity: with price 4 and unit_qty -2 it returns -2,
whereas the claim requires the unit price to be absent when unit_qty is
not positive. -/
theorem c8_negative_qty_cex :
    computeUnitPrice (some 4) (some (-2)) = some (-2) ∧ ¬ (0 : ℚ) < -2 := by
  constructor
  · show (if (4 : ℚ) = 0 ∨ (-2 : ℚ) = 0 then none else some ((4 : ℚ) / -2)) =
      some (-2)
    norm_num
  · norm_num

/-- C8 (amended): compute_unit_price yields price / unit_qty exactly when
both are present and both nonzero (a negative quantity is accepted, a zero
price yields absent); the /deals route additionally requires the quantity
positive and rounds to four places. -/
theorem c8_unit_price_characterization :
    (∀ p q : ℚ,
        (computeUnitPrice (some p) (some q)).isSome = true ↔
          p ≠ 0 ∧ q ≠ 0) ∧
    (∀ p q : ℚ, p ≠ 0 → q ≠ 0 →
        computeUnitPrice (some p) (some q) = some (p / q)) ∧
    (∀ q : Option ℚ, computeUnitPrice none q = none) ∧
    (∀ p : Option ℚ, computeUnitPrice p none = none) ∧
    (∀ p q : ℚ,
        (routeUnitPrice p (some q)).isSome = true ↔
          q ≠ 0 ∧ p ≠ 0 ∧ 0 < q) ∧
    (∀ p : ℚ, routeUnitPrice p none = none) := by
  refine ⟨?_, ?_, ?_, ?_, ?_, ?_⟩
  · intro p q
    by_cases h : p = 0 ∨ q = 0
    · simp only [computeUnitPrice, if_pos h]
      simp only [Option.isSome_none, Bool.false_eq_true, false_iff]
      tauto
    · simp only [computeUnitPrice, if_neg h]
      simp only [Option.isSome_some, true_iff]
      tauto
  · intro p q hp hq
    simp only [computeUnitPrice, if_neg (by tauto : ¬(p = 0 ∨ q = 0))]
  · intro q; cases q <;> rfl
  · intro p; cases p <;> rfl
  · intro p q
    by_cases h : q ≠ 0 ∧ p ≠ 0 ∧ 0 < q
    · simp only [routeUnitPrice, if_pos h, Option.isSome_some, true_iff]
      exact h
    · simp only [routeUnitPrice, if_neg h, Option.isSome_none,
        Bool.false_eq_true, false_iff]
      exact h
  · intro p; rfl

theorem c8_unit_price_characterization_wit :
    computeUnitPrice (some 9) (some 2) = some (9 / 2) :=
  c8_unit_price_characterization.2.1 9 2 (by norm_num) (by norm_num)

/-- C9: the compare route reads only the sample collection, so its output
never depends on the persisted Food Lion or Fresh Market collections, even
though the deals route merges all three and does observe them. -/
theorem c9_compare_reads_sample_only :
    (∀ (wanted : List String) (s fl fm fl2 fm2 : List Deal),
        compareEndpoint ⟨s, fl, fm⟩ wanted =
          compareEndpoint ⟨s, fl2, fm2⟩ wanted) ∧
    dealsEndpoint ⟨[], [dealCB], []⟩ ≠ dealsEndpoint ⟨[], [], []⟩ := by
  constructor
  · intro wanted s fl fm fl2 fm2; rfl
  · simp [dealsEndpoint]

/-- C10: a single captured-JSON object with one name field and three
distinct parseable price fields makes the walk emit three Deals sharing
the item name, one per price field, and all three survive deduplication
into the persisted collection. -/
theorem c10_multi_price_fields_survive :
    (walkJ stamp0 appleNode).map (fun d => (d.item, d.price)) =
      [("Apple Juice", 299 / 100), ("Apple Juice", 249 / 100),
       ("Apple Juice", 399 / 100)] ∧
    dedupeDeals (walkJ stamp0 appleNode) = walkJ stamp0 appleNode ∧
    runPipeline (walkJ stamp0 appleNode) stamp0 milkDoc =
      walkJ stamp0 appleNode :=
  ⟨rfl, by decide!, by decide!⟩
